import Mathlib

/-!  Verification development for the configuration and artifact lifecycle
manager in `web/web_config.py`.

The Python code is shallowly embedded: Python strings are modelled as lists
of characters (`Str`), Python dicts over string keys as insertion-ordered
association lists with in-place update (`dictInsert` / `dget`), files as
`Option Str` (existence plus content), and the dzyga binary deployment as a
pure transition function over an explicit state that also records the
external effects (service stop/start, filesystem accesses) it issues.  -/

set_option maxHeartbeats 1000000
set_option maxRecDepth 4000

/-- A Python string, modelled as its list of characters. -/
abbrev Str := List Char

/-- The ASCII whitespace characters removed by Python `str.strip()`. -/
def isPySpace (c : Char) : Bool :=
  c = ' ' || c = '\t' || c = '\n' || c = '\r' || c = '\x0b' || c = '\x0c'

/-- Python `s.lstrip()`: drop leading whitespace. -/
def pyLStrip (s : Str) : Str := s.dropWhile isPySpace

/-- Python `s.rstrip()`: drop trailing whitespace. -/
def pyRStrip (s : Str) : Str := s.rdropWhile isPySpace

/-- Python `s.strip()`: drop leading and trailing whitespace. -/
def pyStrip (s : Str) : Str := pyRStrip (pyLStrip s)

/-- Python `c in s` for a single character. -/
def hasChar (c : Char) : Str → Bool
  | [] => false
  | a :: s => a = c || hasChar c s

/-- Python `s.startswith('#')`. -/
def startsWithHash (s : Str) : Bool := s.head? = some '#'

/-- Python `s.split('=', 1)`: the part before the first `'='` and the part
after it (the whole string and `[]` if no `'='` occurs; the parser only uses
it on lines containing `'='`). -/
def splitEq1 : Str → Str × Str
  | [] => ([], [])
  | c :: rest =>
    if c = '=' then ([], rest)
    else
      let p := splitEq1 rest
      (c :: p.1, p.2)

/-- The quote-removal step shared by `parse_config` and `parse_defaults`:
`if value.startswith('"') and value.endswith('"'): value = value[1:-1]`. -/
def stripQuotes (v : Str) : Str :=
  if v.head? = some '"' && v.getLast? = some '"' then (v.drop 1).dropLast else v

/-- Python `content.split('\n')`. -/
def splitNl : Str → List Str
  | [] => [[]]
  | c :: rest =>
    if c = '\n' then [] :: splitNl rest
    else
      match splitNl rest with
      | [] => [[c]]
      | l :: ls => (c :: l) :: ls

/-- Python `f.readlines()`: the lines of the content, each keeping its
terminating newline; a final unterminated line keeps no terminator. -/
def pyReadlines (s : Str) : List Str :=
  let parts := splitNl s
  match parts.getLast? with
  | some [] => parts.dropLast.map (fun l => l ++ ['\n'])
  | _ => parts.dropLast.map (fun l => l ++ ['\n']) ++ [parts.getLast?.getD []]

/-- A file consisting of the given lines, each terminated by a newline. -/
def unlines (body : List Str) : Str := (body.map (fun l => l ++ ['\n'])).flatten

/-- Python dict assignment `d[k] = v` on an insertion-ordered association
list: replace the value at an existing key in place, otherwise append. -/
def dictInsert (k v : Str) : List (Str × Str) → List (Str × Str)
  | [] => [(k, v)]
  | p :: rest => if p.1 = k then (k, v) :: rest else p :: dictInsert k v rest

/-- Python dict lookup `d.get(k)` (first matching key; keys built by
`dictInsert` are unique). -/
def dget (d : List (Str × Str)) (k : Str) : Option Str :=
  match d with
  | [] => none
  | p :: rest => if p.1 = k then some p.2 else dget rest k

/-- Left-biased choice on optional values (`a` if present, else `b`). -/
def oalt (a b : Option Str) : Option Str :=
  match a with
  | some v => some v
  | none => b

/-- The value that later entries of an association list assign to `k`
(the last write wins), as computed by a fold. -/
def lastLookup (l : List (Str × Str)) (k : Str) : Option Str :=
  l.foldl (fun acc p => if p.1 = k then some p.2 else acc) none

/-- Python `'\n'.join(ls)`. -/
def joinNlList (ls : List Str) : Str := (List.intersperse ['\n'] ls).flatten

/-- The fold state of the `parse_config` line loop: the config dict, the
comments dict, and the pending comment buffer `current_comment`. -/
structure ParseSt where
  config : List (Str × Str)
  comments : List (Str × Str)
  currentComment : List Str
deriving DecidableEq

/-- One iteration of the `parse_config` loop over `content.split('\n')`:
a `#` line accumulates into the pending comment buffer; a non-empty line
containing `=` binds `key.strip()` to the stripped, unquoted value and
consumes the pending comment; any other non-empty line is appended to the
pending comment buffer; an empty line does nothing. -/
def parseLine (st : ParseSt) (rawLine : Str) : ParseSt :=
  let line := pyStrip rawLine
  if startsWithHash line then
    { st with currentComment := st.currentComment ++ [pyStrip (line.drop 1)] }
  else if !line.isEmpty && hasChar '=' line then
    let kv := splitEq1 line
    let key := pyStrip kv.1
    let value := stripQuotes (pyStrip kv.2)
    { config := dictInsert key value st.config
      comments :=
        if st.currentComment.isEmpty then st.comments
        else dictInsert key (joinNlList st.currentComment) st.comments
      currentComment := [] }
  else if !line.isEmpty then
    { st with currentComment := st.currentComment ++ [line] }
  else st

/-- The key/value pair contributed by one line of the config file, if the
line is an assignment (used to specify `parseLine`). -/
def lineAssign (rawLine : Str) : Option (Str × Str) :=
  let line := pyStrip rawLine
  if startsWithHash line then none
  else if !line.isEmpty && hasChar '=' line then
    some (pyStrip (splitEq1 line).1, stripQuotes (pyStrip (splitEq1 line).2))
  else none

/-- `parse_defaults()`: parse the defaults file (modelled as `Option Str`:
existence plus content) into a dict, with the same stripping and
quote-removal as the main parser; a missing file yields the empty dict. -/
def parse_defaults (defsFile : Option Str) : List (Str × Str) :=
  match defsFile with
  | none => []
  | some content =>
    (splitNl content).foldl
      (fun d line =>
        let ls := pyStrip line
        if !ls.isEmpty && !startsWithHash ls && hasChar '=' ls then
          dictInsert (pyStrip (splitEq1 ls).1) (stripQuotes (pyStrip (splitEq1 ls).2)) d
        else d)
      []

/-- The `for key, default_value in defaults.items(): if key not in config:
config[key] = default_value` loop of `parse_config`. -/
def applyDefaults (defaults : List (Str × Str)) (config : List (Str × Str)) :
    List (Str × Str) :=
  defaults.foldl
    (fun c kv => if (dget c kv.1).isSome then c else dictInsert kv.1 kv.2 c)
    config

/-- `parse_config()`: parse the persisted config file (`Option Str`) with
comments support, then fill in defaults for missing keys.  When the config
file does not exist the result is immediately `({}, {})`. -/
def parse_config (cfgFile defsFile : Option Str) :
    List (Str × Str) × List (Str × Str) :=
  match cfgFile with
  | none => ([], [])
  | some content =>
    let st := (splitNl content).foldl parseLine ⟨[], [], []⟩
    (applyDefaults (parse_defaults defsFile) st.config, st.comments)

/-- Error kinds surfaced by the HTTP layer: 400 with a malformed-input
message, 404, 500 on an I/O failure, and the `FileNotFoundError` raised by
`save_config` when the defaults file is missing (mapped to `notFound`). -/
inductive Err where
  | invalidInput
  | notFound
  | ioFailure
deriving DecidableEq

deriving instance DecidableEq for Except

/-- The value-quoting step of `save_config`:
`if ' ' in value or not value: value = f'"{value}"'`. -/
def writeVal (v : Str) : Str :=
  if hasChar ' ' v || v.isEmpty then '"' :: (v ++ ['"']) else v

/-- The line-rewriting loop of `save_config` over `f.readlines()`: an
assignment line whose key is in the update dict `U` is replaced by
`key=value\n`, every other line is kept verbatim; also returns the list of
keys that were consumed (`updated_keys`). -/
def save_lines (U : List (Str × Str)) : List Str → List Str × List Str
  | [] => ([], [])
  | line :: rest =>
    let ls := pyStrip line
    let step : Str × List Str :=
      if hasChar '=' ls && !startsWithHash ls then
        let key := pyStrip (splitEq1 ls).1
        match dget U key with
        | some v => (key ++ '=' :: (writeVal v ++ ['\n']), [key])
        | none => (line, [])
      else (line, [])
    let p := save_lines U rest
    (step.1 :: p.1, step.2 ++ p.2)

/-- The append phase of `save_config`: one `key=value\n` line for every
update key not consumed by the rewrite loop, in the iteration order of the
update dict. -/
def appendNew (U : List (Str × Str)) (updated : List Str) : List Str :=
  (U.filter (fun kv => !(updated.contains kv.1))).map
    (fun kv => kv.1 ++ '=' :: (writeVal kv.2 ++ ['\n']))

/-- `save_config(config_data)`: if the persisted file is missing it is
first materialized from the defaults file (raising `FileNotFoundError`,
modelled as `Err.notFound`, when that is missing too); then the file is
rewritten line by line and missing update keys are appended.  Returns the
new file content. -/
def save_config (cfgFile defsFile : Option Str) (U : List (Str × Str)) :
    Except Err Str :=
  match cfgFile with
  | some content =>
    let p := save_lines U (pyReadlines content)
    Except.ok ((p.1 ++ appendNew U p.2).flatten)
  | none =>
    match defsFile with
    | none => Except.error Err.notFound
    | some d =>
      let p := save_lines U (pyReadlines d)
      Except.ok ((p.1 ++ appendNew U p.2).flatten)

/-- The persisted-config filesystem: the config file and the defaults file,
each either absent or present with content. -/
structure CfgFs where
  cfg : Option Str
  defaults : Option Str
deriving DecidableEq

/-- `save_config` as a state transition on the persisted files: on success
the config file holds the new content, on failure nothing changes. -/
def save_config_fs (fs : CfgFs) (U : List (Str × Str)) :
    CfgFs × Except Err Unit :=
  match save_config fs.cfg fs.defaults U with
  | Except.ok out => ({ fs with cfg := some out }, Except.ok ())
  | Except.error e => (fs, Except.error e)

/-- The key checked by the readiness gate. -/
def rtmpUrlKey : Str := "RTMP_URL".data

/-- `is_config_ready(config)`: `(config.get('RTMP_URL') or '').strip()`
must be non-empty. -/
def is_config_ready (config : List (Str × Str)) : Bool :=
  let rtmp := pyStrip ((dget config rtmpUrlKey).getD [])
  !rtmp.isEmpty

/-- The config file together with its three rotating backup slots
(`stream.conf.backup.1` .. `.backup.3`); each is absent or has content. -/
structure ConfigSt where
  b1 : Option Str
  b2 : Option Str
  b3 : Option Str
  cfg : Option Str
deriving DecidableEq

/-- `save_raw_config`: reject blank content; otherwise remove slot 3 if
present, rename slot 2 to 3 and slot 1 to 2 when they exist, snapshot the
current config file into slot 1 if it exists, and write the new content. -/
def save_raw_config (content : Str) (s : ConfigSt) :
    ConfigSt × Except Err Unit :=
  if (pyStrip content).isEmpty then (s, Except.error Err.invalidInput)
  else
    let s := { s with b3 := none }
    let s :=
      match s.b2 with
      | some c => { s with b3 := some c, b2 := none }
      | none => s
    let s :=
      match s.b1 with
      | some c => { s with b2 := some c, b1 := none }
      | none => s
    let s :=
      match s.cfg with
      | some c => { s with b1 := some c }
      | none => s
    ({ s with cfg := some content }, Except.ok ())

/-- The backup file selected by slot number (only 1..3 are reachable in the
code; other numbers are rejected before any file is touched). -/
def slotFile (s : ConfigSt) : Nat → Option Str
  | 1 => s.b1
  | 2 => s.b2
  | 3 => s.b3
  | _ => none

/-- `get_backup_content(backup_num)`: 400 (`invalidInput`) outside 1..3,
404 (`notFound`) for an empty slot, otherwise the slot's content. -/
def get_backup_content (n : Nat) (s : ConfigSt) : Except Err Str :=
  if n < 1 || n > 3 then Except.error Err.invalidInput
  else
    match slotFile s n with
    | none => Except.error Err.notFound
    | some c => Except.ok c

/-- `restore_from_backup(backup_num)`: same validation as
`get_backup_content`; on success the slot content becomes the config
file. -/
def restore_from_backup (n : Nat) (s : ConfigSt) :
    ConfigSt × Except Err Unit :=
  if n < 1 || n > 3 then (s, Except.error Err.invalidInput)
  else
    match slotFile s n with
    | none => (s, Except.error Err.notFound)
    | some c => ({ s with cfg := some c }, Except.ok ())

/-- A deployed file's identity: content plus `st_uid`, `st_gid` and the
full `st_mode` (file-type bits and the twelve permission bits). -/
structure FileRec where
  content : Str
  uid : Nat
  gid : Nat
  mode : Nat
deriving DecidableEq

/-- External effects issued by the deployer: service control calls and
filesystem accesses to the backup directory and the live binary. -/
inductive Ev where
  | svcStop
  | svcStart
  | svcReload
  | fsWrite (path : Str)
  | fsDelete (path : Str)
  | fsStat (path : Str)
deriving DecidableEq

/-- The dzyga deployer state: the live binary, the backup directory (name
to snapshot, `copy2` preserves metadata), whether the service is active,
and the trace of external effects issued so far. -/
structure DzygaSt where
  binary : Option FileRec
  backups : List (Str × FileRec)
  serviceActive : Bool
  events : List Ev
deriving DecidableEq

/-- MD5 modelled as the identity on content (a collision-free digest). -/
def file_md5 (s : Str) : Str := s

/-- The path of the live binary, used only to label effect events. -/
def dzygaBinaryPath : Str := "dzyga".data

/-- `f'dzyga.backup.{old_mtime}.md5_{old_md5}'`. -/
def mkBackupName (now digest : Str) : Str :=
  ("dzyga.backup.".data) ++ now ++ (".md5_".data) ++ digest

/-- `oct(mode)[-3:]` as parsed back by `chmod`: the last three octal digits
of the mode, i.e. the lower nine permission bits (every regular-file
`st_mode` has at least three octal digits). -/
def octLast3 (m : Nat) : Nat := m % 512

/-- The effect of `chmod a` on a full `st_mode`: the twelve permission bits
are set to `a`, the file-type bits are kept. -/
def chmodSet (m a : Nat) : Nat := m - m % 4096 + a

/-- The twelve permission bits (setuid, setgid, sticky, rwxrwxrwx) of a
full `st_mode`. -/
def permBits (m : Nat) : Nat := m % 4096

/-- `strStarts pat s`: `pat` is an initial segment of `s`. -/
def strStarts : Str → Str → Bool
  | [], _ => true
  | _ :: _, [] => false
  | p :: ps, c :: cs => p == c && strStarts ps cs

/-- Python `pat in s` for strings: `pat` occurs as a contiguous substring
of `s`. -/
def hasSub (pat : Str) : Str → Bool
  | [] => strStarts pat []
  | c :: rest => strStarts pat (c :: rest) || hasSub pat rest

/-- Python `'..' in name`. -/
def hasDotDot (s : Str) : Bool := hasSub ['.', '.'] s

/-- Lookup of a backup file in the backup directory by name. -/
def lookupBackup (s : DzygaSt) (name : Str) : Option FileRec :=
  (s.backups.find? (fun p => p.1 == name)).map (fun p => p.2)

/-- `dzyga_upload`: back up the live binary (if any) under a
timestamp+digest name, capture its ownership and mode (or the fixed
fallback `rpidrone:rpidrone`, mode `0o751`), stop the service, replace the
binary (`cpOk` says whether the privileged copy succeeds; on failure the
service is started again and the error reported), re-apply the captured
ownership and the last three octal digits of the captured mode, reload unit
definitions and start the service.  `ruid`/`rgid` are rpidrone's uid/gid,
`now` the timestamp string used in the backup name. -/
def dzyga_upload (ruid rgid : Nat) (now payload : Str) (cpOk : Bool)
    (s : DzygaSt) : DzygaSt × Except Err (Str × Str) :=
  let bkStep : DzygaSt × Str :=
    match s.binary with
    | some b =>
      let name := mkBackupName now (file_md5 b.content)
      ({ s with backups := s.backups ++ [(name, b)]
                events := s.events ++ [Ev.fsWrite name] }, name)
    | none => (s, [])
  let s1 := bkStep.1
  let origUid : Nat := match s.binary with | some b => b.uid | none => ruid
  let origGid : Nat := match s.binary with | some b => b.gid | none => rgid
  let origMode : Nat := match s.binary with | some b => b.mode | none => 0o751
  let s2 := { s1 with serviceActive := false
                      events := s1.events ++ [Ev.svcStop] }
  if cpOk then
    let afterCp : FileRec :=
      match s.binary with
      | some b => { b with content := payload }
      | none => { content := payload, uid := 0, gid := 0, mode := 0o100644 }
    let withOwner : FileRec := { afterCp with uid := origUid, gid := origGid }
    let withMode : FileRec :=
      { withOwner with mode := chmodSet withOwner.mode (octLast3 origMode) }
    let s3 := { s2 with binary := some withMode
                        events := s2.events ++ [Ev.fsWrite dzygaBinaryPath] }
    let s4 := { s3 with events := s3.events ++ [Ev.svcReload] }
    let s5 := { s4 with serviceActive := true
                        events := s4.events ++ [Ev.svcStart] }
    (s5, Except.ok (file_md5 payload, bkStep.2))
  else
    let s3 := { s2 with serviceActive := true
                        events := s2.events ++ [Ev.svcStart] }
    (s3, Except.error Err.ioFailure)

/-- `dzyga_restore`: reject an empty name and any name containing `/` or
`..` before touching the filesystem; 404 when the named backup is absent;
otherwise the same stop, replace, re-own, re-mode, reload, start sequence
as the upload, using the backup's content. -/
def dzyga_restore (ruid rgid : Nat) (name : Str) (cpOk : Bool)
    (s : DzygaSt) : DzygaSt × Except Err Str :=
  if name.isEmpty then (s, Except.error Err.invalidInput)
  else if hasChar '/' name || hasDotDot name then
    (s, Except.error Err.invalidInput)
  else
    let s1 := { s with events := s.events ++ [Ev.fsStat name] }
    match lookupBackup s name with
    | none => (s1, Except.error Err.notFound)
    | some bk =>
      let origUid : Nat := match s.binary with | some b => b.uid | none => ruid
      let origGid : Nat := match s.binary with | some b => b.gid | none => rgid
      let origMode : Nat :=
        match s.binary with | some b => b.mode | none => 0o751
      let s2 := { s1 with serviceActive := false
                          events := s1.events ++ [Ev.svcStop] }
      if cpOk then
        let afterCp : FileRec :=
          match s.binary with
          | some b => { b with content := bk.content }
          | none => { content := bk.content, uid := 0, gid := 0, mode := 0o100644 }
        let withOwner : FileRec :=
          { afterCp with uid := origUid, gid := origGid }
        let withMode : FileRec :=
          { withOwner with mode := chmodSet withOwner.mode (octLast3 origMode) }
        let s3 := { s2 with binary := some withMode
                            events := s2.events ++ [Ev.fsWrite dzygaBinaryPath] }
        let s4 := { s3 with events := s3.events ++ [Ev.svcReload] }
        let s5 := { s4 with serviceActive := true
                            events := s4.events ++ [Ev.svcStart] }
        (s5, Except.ok (file_md5 withMode.content))
      else
        let s3 := { s2 with serviceActive := true
                            events := s2.events ++ [Ev.svcStart] }
        (s3, Except.error Err.ioFailure)

/-- `dzyga_delete_backup`: same name validation as the restore; 404 when
the named backup is absent; otherwise unlink it. -/
def dzyga_delete_backup (name : Str) (s : DzygaSt) :
    DzygaSt × Except Err Unit :=
  if name.isEmpty then (s, Except.error Err.invalidInput)
  else if hasChar '/' name || hasDotDot name then
    (s, Except.error Err.invalidInput)
  else
    let s1 := { s with events := s.events ++ [Ev.fsStat name] }
    match lookupBackup s name with
    | none => (s1, Except.error Err.notFound)
    | some _ =>
      ({ s1 with backups := s1.backups.filter (fun p => !(p.1 == name))
                 events := s1.events ++ [Ev.fsDelete name] },
       Except.ok ())

/-- A value survives the writer's quoting followed by the parser's
stripping and unquoting unchanged. -/
abbrev roundTripVal (v : Str) : Prop := stripQuotes (pyStrip (writeVal v)) = v

/-- A well-formed update key: already stripped, no `=`, no newline, not
starting with the comment marker. -/
abbrev goodKey (k : Str) : Prop :=
  pyStrip k = k ∧ hasChar '=' k = false ∧ hasChar '\n' k = false ∧
    startsWithHash k = false

/-- A well-formed update value: round-trips through quoting and contains no
newline. -/
abbrev goodVal (v : Str) : Prop := roundTripVal v ∧ hasChar '\n' v = false

/-- The writer's and parser's shared test for an assignment line: the
stripped line contains the separator and does not start with the comment
marker. -/
def isAssignLine (l : Str) : Bool :=
  hasChar '=' (pyStrip l) && !startsWithHash (pyStrip l)

/-- The key extracted from an assignment line: the stripped part before the
first separator of the stripped line. -/
def lineKey (l : Str) : Str := pyStrip (splitEq1 (pyStrip l)).1

/-- The body-level line transformation performed by the `save_config`
rewrite loop (the written file is `unlines` of the transformed body plus
the appended lines). -/
def writeLine (U : List (Str × Str)) (l : Str) : Str :=
  if isAssignLine l then
    match dget U (lineKey l) with
    | some v => lineKey l ++ '=' :: writeVal v
    | none => l
  else l

/-- The keys consumed by the `save_config` rewrite loop, at body level. -/
def wKeys (U : List (Str × Str)) (body : List Str) : List Str :=
  body.filterMap
    (fun l =>
      if isAssignLine l && (dget U (lineKey l)).isSome then some (lineKey l)
      else none)

/-! ## Basic dictionary and option lemmas -/

theorem dget_dictInsert (k v k' : Str) (d : List (Str × Str)) :
    dget (dictInsert k v d) k' = if k = k' then some v else dget d k' := by
  induction d with
  | nil =>
    by_cases h : k = k' <;> simp [dictInsert, dget, h]
  | cons p rest ih =>
    by_cases hp : p.1 = k
    · by_cases h : k = k'
      · simp [dictInsert, dget, hp, h]
      · have hp' : p.1 ≠ k' := fun he => h (hp.symm.trans he)
        simp [dictInsert, dget, hp, h, hp']
    · by_cases h : p.1 = k'
      · have hk : k ≠ k' := fun he => hp (h.trans he.symm)
        simp [dictInsert, dget, hp, h, hk, Ne.symm hk]
      · simp [dictInsert, dget, hp, h, ih]

theorem dget_eq_none_iff (d : List (Str × Str)) (k : Str) :
    dget d k = none ↔ ∀ p ∈ d, p.1 ≠ k := by
  induction d with
  | nil => simp [dget]
  | cons p rest ih =>
    by_cases h : p.1 = k <;> simp [dget, h, ih]

theorem dget_some_mem (d : List (Str × Str)) (k v : Str)
    (h : dget d k = some v) : (k, v) ∈ d := by
  induction d with
  | nil => simp [dget] at h
  | cons p rest ih =>
    by_cases hp : p.1 = k
    · simp only [dget, if_pos hp] at h
      have hpv : p = (k, v) := by
        cases p
        simp_all
      exact hpv ▸ List.mem_cons_self p rest
    · simp only [dget, if_neg hp] at h
      exact List.mem_cons_of_mem _ (ih h)

theorem dget_nodup_of_mem (d : List (Str × Str)) (p : Str × Str)
    (hnd : (d.map Prod.fst).Nodup) (hp : p ∈ d) : dget d p.1 = some p.2 := by
  induction d with
  | nil => simp at hp
  | cons q rest ih =>
    simp only [List.map_cons, List.nodup_cons] at hnd
    rcases List.mem_cons.mp hp with hq | hq
    · subst hq
      simp [dget]
    · have hne : q.1 ≠ p.1 := by
        intro he
        exact hnd.1 (he ▸ List.mem_map_of_mem Prod.fst hq)
      simp only [dget, if_neg hne]
      exact ih hnd.2 hq

/-! ## String stripping lemmas -/

theorem hasChar_iff_mem (c : Char) (s : Str) : hasChar c s = true ↔ c ∈ s := by
  induction s with
  | nil => simp [hasChar]
  | cons a s ih =>
    simp only [hasChar, Bool.or_eq_true, decide_eq_true_eq, ih, List.mem_cons]
    constructor
    · rintro (h | h)
      · exact Or.inl h.symm
      · exact Or.inr h
    · rintro (h | h)
      · exact Or.inl h.symm
      · exact Or.inr h

theorem hasChar_eq_false_iff (c : Char) (s : Str) :
    hasChar c s = false ↔ c ∉ s := by
  rw [← hasChar_iff_mem]
  simp

theorem hasChar_append (c : Char) (a b : Str) :
    hasChar c (a ++ b) = (hasChar c a || hasChar c b) := by
  induction a with
  | nil => simp [hasChar]
  | cons x a ih => simp [hasChar, ih, Bool.or_assoc]

theorem hasChar_ne_nil (c : Char) (s : Str) (h : hasChar c s = true) :
    s ≠ [] := by
  cases s with
  | nil => simp [hasChar] at h
  | cons a s => simp

theorem pyLStrip_cons_not (c : Char) (s : Str) (h : isPySpace c = false) :
    pyLStrip (c :: s) = c :: s := by
  unfold pyLStrip
  rw [List.dropWhile_cons, if_neg (by simp [h])]

theorem pyLStrip_append (a b : Str) :
    pyLStrip (a ++ b) =
      if pyLStrip a = [] then pyLStrip b else pyLStrip a ++ b := by
  induction a with
  | nil => simp [pyLStrip]
  | cons c a ih =>
    by_cases hc : isPySpace c
    · simp [pyLStrip, List.dropWhile_cons, hc] at ih ⊢
      exact ih
    · simp [pyLStrip, List.dropWhile_cons, hc]

theorem pyRStrip_append (a b : Str) :
    pyRStrip (a ++ b) =
      if pyRStrip b = [] then pyRStrip a else a ++ pyRStrip b := by
  unfold pyRStrip
  unfold List.rdropWhile
  have hla := pyLStrip_append b.reverse a.reverse
  unfold pyLStrip at hla
  rw [List.reverse_append, hla]
  by_cases hb : List.dropWhile isPySpace b.reverse = []
  · simp [pyLStrip, hb]
  · have hb2 : (List.dropWhile isPySpace b.reverse).reverse ≠ [] := by
      simp [hb]
    simp [pyLStrip, hb, hb2]

theorem pyRStrip_cons_not (c : Char) (s : Str) (h : isPySpace c = false) :
    pyRStrip (c :: s) = c :: pyRStrip s := by
  have h1 : pyRStrip [c] = [c] := by
    unfold pyRStrip
    simp [List.rdropWhile_singleton, h]
  have := pyRStrip_append [c] s
  by_cases hs : pyRStrip s = []
  · simp [hs, h1] at this
    simpa [hs] using this
  · simpa [hs] using this

theorem pyStrip_eq_self_left (s : Str) (h : pyStrip s = s) :
    pyLStrip s = s := by
  have h1 : pyLStrip s <:+ s := List.dropWhile_suffix isPySpace
  have h2 : pyRStrip (pyLStrip s) <+: pyLStrip s :=
    List.rdropWhile_prefix isPySpace (pyLStrip s)
  have hl : s.length ≤ (pyLStrip s).length := by
    have := h2.length_le
    rw [show pyRStrip (pyLStrip s) = s from h] at this
    exact this
  exact h1.eq_of_length (Nat.le_antisymm h1.length_le hl)

theorem pyStrip_eq_self_right (s : Str) (h : pyStrip s = s) :
    pyRStrip s = s := by
  have := pyStrip_eq_self_left s h
  unfold pyStrip at h
  rw [this] at h
  exact h

theorem pyLStrip_allspace (t : Str) (h : ∀ c ∈ t, isPySpace c = true) :
    pyLStrip t = [] := List.dropWhile_eq_nil_iff.mpr h

theorem pyRStrip_allspace (t : Str) (h : ∀ c ∈ t, isPySpace c = true) :
    pyRStrip t = [] := by
  unfold pyRStrip
  exact List.rdropWhile_eq_nil_iff.mpr h

theorem pyRStrip_append_allspace (a t : Str)
    (h : ∀ c ∈ t, isPySpace c = true) : pyRStrip (a ++ t) = pyRStrip a := by
  rw [pyRStrip_append, pyRStrip_allspace t h]
  simp

theorem pyRStrip_decomp (s : Str) :
    ∃ t, s = pyRStrip s ++ t ∧ ∀ c ∈ t, isPySpace c = true := by
  refine ⟨(s.reverse.takeWhile isPySpace).reverse, ?_, ?_⟩
  · conv_lhs => rw [← s.reverse_reverse]
    conv_lhs => rw [← List.takeWhile_append_dropWhile (p := isPySpace) (l := s.reverse)]
    rw [List.reverse_append]
    rfl
  · intro c hc
    rw [List.mem_reverse] at hc
    exact List.mem_takeWhile_imp hc

theorem pyLStrip_ne_of_pyRStrip_ne (s : Str) (h : pyRStrip s ≠ []) :
    pyLStrip (pyRStrip s) ≠ [] := by
  intro hnil
  have hall := List.dropWhile_eq_nil_iff.mp hnil
  have hlast := List.rdropWhile_last_not (l := s) (p := isPySpace) h
  exact hlast (hall _ (List.getLast_mem h))

theorem pyStrip_pyRStrip (s : Str) : pyStrip (pyRStrip s) = pyStrip s := by
  obtain ⟨t, hs, ht⟩ := pyRStrip_decomp s
  by_cases hy : pyRStrip s = []
  · rw [hy]
    conv_rhs => rw [hs, hy]
    simp only [List.nil_append]
    unfold pyStrip
    rw [pyLStrip_allspace t ht]
    rfl
  · conv_rhs => rw [hs]
    unfold pyStrip
    rw [pyLStrip_append]
    rw [if_neg (pyLStrip_ne_of_pyRStrip_ne s hy)]
    rw [pyRStrip_append_allspace _ t ht]

theorem pyStrip_pyLStrip (s : Str) : pyStrip (pyLStrip s) = pyStrip s := by
  unfold pyStrip pyLStrip
  rw [List.dropWhile_idempotent]

theorem pyStrip_concat_space (s : Str) (c : Char) (h : isPySpace c = true) :
    pyStrip (s ++ [c]) = pyStrip s := by
  unfold pyStrip
  by_cases hl : pyLStrip s = []
  · have hall := List.dropWhile_eq_nil_iff.mp hl
    have : pyLStrip (s ++ [c]) = [] := by
      apply pyLStrip_allspace
      intro x hx
      rcases List.mem_append.mp hx with hx | hx
      · exact hall x hx
      · simp at hx
        rw [hx]
        exact h
    rw [this, hl]
  · rw [pyLStrip_append, if_neg hl]
    exact pyRStrip_append_allspace _ [c] (by simp [h])

theorem splitEq1_append (k w : Str) (h : hasChar '=' k = false) :
    splitEq1 (k ++ '=' :: w) = (k, w) := by
  induction k with
  | nil => simp [splitEq1]
  | cons c k ih =>
    simp [hasChar] at h
    simp [splitEq1, h.1, ih h.2]

/-! ## Parsing a written assignment line -/

theorem pyStrip_sep_append (pre w : Str) :
    pyStrip (pre ++ '=' :: w) = pyLStrip pre ++ '=' :: pyRStrip w := by
  unfold pyStrip
  rw [pyLStrip_append]
  by_cases h0 : pyLStrip pre = []
  · rw [if_pos h0, h0, pyLStrip_cons_not '=' w (by decide)]
    simp only [List.nil_append]
    rw [pyRStrip_cons_not '=' w (by decide)]
  · rw [if_neg h0]
    rw [pyRStrip_append (pyLStrip pre) ('=' :: w),
      pyRStrip_cons_not '=' w (by decide)]
    rw [if_neg (by simp)]

theorem lineAssign_written (k v : Str) (hk1 : pyStrip k = k)
    (hk2 : hasChar '=' k = false) (hk3 : startsWithHash k = false)
    (hv : roundTripVal v) :
    lineAssign (k ++ '=' :: writeVal v) = some (k, v) := by
  have hL : pyLStrip k = k := pyStrip_eq_self_left k hk1
  have hs : pyStrip (k ++ '=' :: writeVal v) =
      k ++ '=' :: pyRStrip (writeVal v) := by
    rw [pyStrip_sep_append, hL]
  have hhash : startsWithHash (k ++ '=' :: pyRStrip (writeVal v)) = false := by
    cases k with
    | nil => simp [startsWithHash]
    | cons c k => simpa [startsWithHash] using hk3
  have hch : hasChar '=' (k ++ '=' :: pyRStrip (writeVal v)) = true := by
    rw [hasChar_append]
    simp [hasChar]
  have hne : (k ++ '=' :: pyRStrip (writeVal v)).isEmpty = false := by
    cases k <;> simp
  simp only [lineAssign, hs, hhash, Bool.false_eq_true, if_false, hne, hch,
    Bool.not_false, Bool.and_self, if_true]
  rw [splitEq1_append k _ hk2]
  simp only [Option.some.injEq, Prod.mk.injEq]
  refine ⟨hk1, ?_⟩
  rw [pyStrip_pyRStrip]
  exact hv

/-- C4 counterexample: an inline comment marker in the value is not
truncated: the line `K=v # c` parses to the value `v # c`, not `v` as the
claim requires. -/
theorem c4_counterexample :
    dget (parseLine ⟨[], [], []⟩ ("K=v # c".data)).config ("K".data) =
        some ("v # c".data) ∧
      ("v # c".data : Str) ≠ "v".data := ⟨by decide, by decide⟩

/-- C4 (amended): for every assignment line, everything after the first
assignment separator is the raw value; the result is trimmed of surrounding
whitespace; and if the trimmed value is wrapped in double-quote characters
exactly one pair is stripped.  No inline-comment truncation is applied to
the value. -/
theorem c4_value_processing (st : ParseSt) (pre post : Str)
    (h1 : hasChar '=' pre = false)
    (h2 : startsWithHash (pyStrip (pre ++ '=' :: post)) = false) :
    dget (parseLine st (pre ++ '=' :: post)).config (pyStrip pre) =
      some (stripQuotes (pyStrip post)) := by
  have hs := pyStrip_sep_append pre post
  rw [hs] at h2
  have hch : hasChar '=' (pyLStrip pre ++ '=' :: pyRStrip post) = true := by
    rw [hasChar_append]
    simp [hasChar]
  have hne : (pyLStrip pre ++ '=' :: pyRStrip post).isEmpty = false := by
    cases hp : pyLStrip pre <;> simp
  have hsub : List.Sublist (pyLStrip pre) pre :=
    List.dropWhile_sublist isPySpace
  have h1' : hasChar '=' (pyLStrip pre) = false := by
    rw [hasChar_eq_false_iff] at h1 ⊢
    intro hmem
    exact h1 (hsub.subset hmem)
  simp only [parseLine, hs, h2, Bool.false_eq_true, if_false, hne, hch,
    Bool.not_false, Bool.and_self, if_true]
  rw [splitEq1_append _ _ h1']
  simp only
  rw [pyStrip_pyLStrip, pyStrip_pyRStrip, dget_dictInsert]
  simp

/-- C4 witness: a quoted, space-padded value on a concrete line. -/
theorem c4_value_processing_witness :
    dget (parseLine ⟨[], [], []⟩
        (("K".data) ++ '=' :: (" \"w x\" ".data))).config
      (pyStrip ("K".data)) = some (stripQuotes (pyStrip (" \"w x\" ".data))) :=
  c4_value_processing ⟨[], [], []⟩ ("K".data) (" \"w x\" ".data)
    (by decide) (by decide)


/-! ## C1: the readiness gate -/

/-- C1 counterexample: `is_config_ready` accepts the unresolved placeholder
token `__PLACEHOLDER__`, whereas the claim requires it to be rejected. -/
theorem c1_counterexample :
    is_config_ready [(rtmpUrlKey, "__PLACEHOLDER__".data)] = true := by decide

/-- C1 (amended): `is_config_ready` is true exactly when the `RTMP_URL` key
is present and its value, after trimming whitespace, is non-empty; no
placeholder token is rejected.  It is false on the empty set and on a
whitespace-only value. -/
theorem c1_is_config_ready_iff (config : List (Str × Str)) :
    is_config_ready config = true ↔
      ∃ v, dget config rtmpUrlKey = some v ∧ pyStrip v ≠ [] := by
  unfold is_config_ready
  cases h : dget config rtmpUrlKey with
  | none =>
    simp [h]
    decide
  | some v => simp [h, List.isEmpty_iff]

/-! ## C2: FIFO backup rotation -/

/-- C2: starting from a persisted config with content `c0` and empty slots,
four raw saves with non-blank contents `k1..k4` leave slot 1 with `k3`,
slot 2 with `k2`, slot 3 with `k1` and the live file with `k4`; when `c0`
differs from all four saved contents it survives in no slot and not in the
live file. -/
theorem c2_rotation (c0 k1 k2 k3 k4 : Str)
    (h1 : (pyStrip k1).isEmpty = false) (h2 : (pyStrip k2).isEmpty = false)
    (h3 : (pyStrip k3).isEmpty = false) (h4 : (pyStrip k4).isEmpty = false)
    (d1 : c0 ≠ k1) (d2 : c0 ≠ k2) (d3 : c0 ≠ k3) (d4 : c0 ≠ k4) :
    (save_raw_config k4 (save_raw_config k3 (save_raw_config k2
        (save_raw_config k1 ⟨none, none, none, some c0⟩).1).1).1).1 =
      ⟨some k3, some k2, some k1, some k4⟩ ∧
    (⟨some k3, some k2, some k1, some k4⟩ : ConfigSt).b1 ≠ some c0 ∧
    (⟨some k3, some k2, some k1, some k4⟩ : ConfigSt).b2 ≠ some c0 ∧
    (⟨some k3, some k2, some k1, some k4⟩ : ConfigSt).b3 ≠ some c0 ∧
    (⟨some k3, some k2, some k1, some k4⟩ : ConfigSt).cfg ≠ some c0 := by
  refine ⟨?_, by simp [Ne.symm d3], by simp [Ne.symm d2],
    by simp [Ne.symm d1], by simp [Ne.symm d4]⟩
  simp [save_raw_config, h1, h2, h3, h4]

/-- C2 witness at concrete contents. -/
theorem c2_rotation_witness :
    (save_raw_config ['4'] (save_raw_config ['3'] (save_raw_config ['2']
        (save_raw_config ['1'] ⟨none, none, none, some ['0']⟩).1).1).1).1 =
      ⟨some ['3'], some ['2'], some ['1'], some ['4']⟩ ∧
    (⟨some ['3'], some ['2'], some ['1'], some ['4']⟩ : ConfigSt).b1 ≠ some ['0'] ∧
    (⟨some ['3'], some ['2'], some ['1'], some ['4']⟩ : ConfigSt).b2 ≠ some ['0'] ∧
    (⟨some ['3'], some ['2'], some ['1'], some ['4']⟩ : ConfigSt).b3 ≠ some ['0'] ∧
    (⟨some ['3'], some ['2'], some ['1'], some ['4']⟩ : ConfigSt).cfg ≠ some ['0'] :=
  c2_rotation ['0'] ['1'] ['2'] ['3'] ['4'] (by decide) (by decide) (by decide)
    (by decide) (by decide) (by decide) (by decide) (by decide)

/-! ## C5: parsing when files are missing -/

/-- C5 counterexample: when the persisted config file is absent, parsing
returns the empty set even though the defaults source defines `A=1`; the
claim requires the ConfigSet to be built from the defaults text. -/
theorem c5_counterexample :
    dget (parse_config none (some ("A=1\n".data))).1 ("A".data) = none ∧
      dget (parse_defaults (some ("A=1\n".data))) ("A".data) =
        some ("1".data) := ⟨by decide, by decide⟩

/-- C5 (amended): when the persisted config file is absent `parse_config`
yields the empty ConfigSet without consulting the defaults source at all
(in particular, both files missing also yields the empty set, and no error
is raised: the function is total). -/
theorem c5_parse_config_absent (defsFile : Option Str) :
    parse_config none defsFile = ([], []) := rfl

/-! ## C7: slot validation for get and restore -/

/-- C7 counterexample: fetching slot 0 fails with the 400 invalid-input
error, not with NotFound as the claim states. -/
theorem c7_counterexample :
    get_backup_content 0 ⟨none, none, none, none⟩ =
        Except.error Err.invalidInput ∧
      get_backup_content 0 ⟨none, none, none, none⟩ ≠
        Except.error Err.notFound := ⟨by decide, by decide⟩

/-- C7 (amended): out-of-range slots fail with InvalidInput (HTTP 400),
in-range empty slots fail with NotFound (HTTP 404), and restore succeeds
exactly on an in-range, non-empty slot. -/
theorem c7_slot_errors (n : Nat) (s : ConfigSt) :
    (get_backup_content n s = Except.error Err.invalidInput ↔
      (n < 1 ∨ 3 < n)) ∧
    (get_backup_content n s = Except.error Err.notFound ↔
      (1 ≤ n ∧ n ≤ 3 ∧ slotFile s n = none)) ∧
    ((restore_from_backup n s).2 = Except.error Err.invalidInput ↔
      (n < 1 ∨ 3 < n)) ∧
    ((restore_from_backup n s).2 = Except.error Err.notFound ↔
      (1 ≤ n ∧ n ≤ 3 ∧ slotFile s n = none)) ∧
    ((restore_from_backup n s).2 = Except.ok () ↔
      (1 ≤ n ∧ n ≤ 3 ∧ (slotFile s n).isSome = true)) := by
  match n with
  | 0 =>
    refine ⟨?_, ?_, ?_, ?_, ?_⟩ <;>
      simp [get_backup_content, restore_from_backup, slotFile]
  | 1 =>
    cases hs : s.b1 <;>
      refine ⟨?_, ?_, ?_, ?_, ?_⟩ <;>
        simp [get_backup_content, restore_from_backup, slotFile, hs]
  | 2 =>
    cases hs : s.b2 <;>
      refine ⟨?_, ?_, ?_, ?_, ?_⟩ <;>
        simp [get_backup_content, restore_from_backup, slotFile, hs]
  | 3 =>
    cases hs : s.b3 <;>
      refine ⟨?_, ?_, ?_, ?_, ?_⟩ <;>
        simp [get_backup_content, restore_from_backup, slotFile, hs]
  | (m + 4) =>
    have hb : (m + 4 < 1 || m + 4 > 3) = true := by
      simp
    refine ⟨?_, ?_, ?_, ?_, ?_⟩ <;>
      simp [get_backup_content, restore_from_backup, slotFile, hb]

/-! ## C10: bootstrap failure when both files are missing -/

/-- C10: when both the persisted config file and the defaults source are
missing, `save_config` fails with the missing-file error and nothing is
written: the filesystem state is unchanged and no config file is
created. -/
theorem c10_bootstrap_error (U : List (Str × Str)) :
    save_config_fs ⟨none, none⟩ U =
      (⟨none, none⟩, Except.error Err.notFound) := rfl

/-! ## C8: upload failure restarts the service -/

/-- C8: if the privileged copy of a binary upload fails, the operation
reports failure, the live artifact is unchanged, the last issued external
effect is a service start, and the service is active again. -/
theorem c8_upload_cp_failure (ruid rgid : Nat) (now payload : Str)
    (s : DzygaSt) :
    (dzyga_upload ruid rgid now payload false s).1.binary = s.binary ∧
    (dzyga_upload ruid rgid now payload false s).1.serviceActive = true ∧
    (dzyga_upload ruid rgid now payload false s).1.events.getLast? =
      some Ev.svcStart ∧
    (dzyga_upload ruid rgid now payload false s).2 =
      Except.error Err.ioFailure := by
  cases hb : s.binary <;>
    simp [dzyga_upload, hb, List.getLast?_concat]

/-! ## C9: path-traversal name validation -/

/-- C9: a backup name containing `/` or `..` makes both the binary restore
and the backup delete fail with InvalidInput while leaving the state,
including the trace of filesystem accesses, untouched: no file is read,
written or deleted. -/
theorem c9_name_validation (ruid rgid : Nat) (cpOk : Bool) (name : Str)
    (s : DzygaSt)
    (h : hasChar '/' name = true ∨ hasDotDot name = true) :
    dzyga_restore ruid rgid name cpOk s =
      (s, Except.error Err.invalidInput) ∧
    dzyga_delete_backup name s = (s, Except.error Err.invalidInput) := by
  have hne : name.isEmpty = false := by
    cases name with
    | nil =>
      rcases h with h | h
      · simp [hasChar] at h
      · simp [hasDotDot, hasSub, strStarts] at h
    | cons c cs => rfl
  have hcond : (hasChar '/' name || hasDotDot name) = true := by
    rcases h with h | h <;> simp [h]
  simp [dzyga_restore, dzyga_delete_backup, hne, hcond]

/-- C9 witness at a concrete traversal name. -/
theorem c9_name_validation_witness :
    dzyga_restore 1 2 ("../x".data) true ⟨none, [], true, []⟩ =
      (⟨none, [], true, []⟩, Except.error Err.invalidInput) ∧
    dzyga_delete_backup ("../x".data) ⟨none, [], true, []⟩ =
      (⟨none, [], true, []⟩, Except.error Err.invalidInput) :=
  c9_name_validation 1 2 true ("../x".data) ⟨none, [], true, []⟩
    (Or.inr (by decide))

/-! ## C6: ownership and permission preservation -/

theorem permBits_chmodSet (m a : Nat) (h : a < 4096) :
    permBits (chmodSet m a) = a := by
  unfold permBits chmodSet
  have h3 : m - m % 4096 = 4096 * (m / 4096) := by
    have := Nat.div_add_mod m 4096
    omega
  rw [h3, Nat.mul_add_mod]
  exact Nat.mod_eq_of_lt h

/-- C6 counterexample: replacing a binary whose mode carries the setuid bit
(`0o104755`) yields a binary with permission bits `0o755`: the setuid bit
is not preserved, contradicting the claimed equality of permission bits. -/
theorem c6_counterexample :
    ((dzyga_upload 1 2 [] ['p'] true
        ⟨some ⟨['b'], 7, 8, 0o104755⟩, [], true, []⟩).1.binary.map
      (fun b => permBits b.mode)) = some 0o755 ∧
    (0o755 : Nat) ≠ permBits 0o104755 := ⟨by decide, by decide⟩

/-- C6 (amended): after a successful binary replace (upload or restore) the
uid and gid of the new live artifact equal those of the artifact it
replaced, and its lower nine permission bits equal the lower nine
permission bits of the replaced artifact while the setuid/setgid/sticky
bits are cleared; if no prior artifact existed, the identity is the
fallback `rpidrone:rpidrone` with mode `0o751`. -/
theorem c6_replace_preserves (ruid rgid : Nat) (now payload name : Str)
    (s : DzygaSt) :
    (∀ b, s.binary = some b →
      ∃ nb, (dzyga_upload ruid rgid now payload true s).1.binary = some nb ∧
        nb.content = payload ∧ nb.uid = b.uid ∧ nb.gid = b.gid ∧
        permBits nb.mode = b.mode % 512) ∧
    (s.binary = none →
      ∃ nb, (dzyga_upload ruid rgid now payload true s).1.binary = some nb ∧
        nb.content = payload ∧ nb.uid = ruid ∧ nb.gid = rgid ∧
        permBits nb.mode = 0o751) ∧
    (∀ b bk, s.binary = some b → lookupBackup s name = some bk →
        name.isEmpty = false →
        (hasChar '/' name || hasDotDot name) = false →
      ∃ nb, (dzyga_restore ruid rgid name true s).1.binary = some nb ∧
        nb.content = bk.content ∧ nb.uid = b.uid ∧ nb.gid = b.gid ∧
        permBits nb.mode = b.mode % 512) ∧
    (∀ bk, s.binary = none → lookupBackup s name = some bk →
        name.isEmpty = false →
        (hasChar '/' name || hasDotDot name) = false →
      ∃ nb, (dzyga_restore ruid rgid name true s).1.binary = some nb ∧
        nb.content = bk.content ∧ nb.uid = ruid ∧ nb.gid = rgid ∧
        permBits nb.mode = 0o751) := by
  refine ⟨?_, ?_, ?_, ?_⟩
  · intro b hb
    refine ⟨⟨payload, b.uid, b.gid, chmodSet b.mode (octLast3 b.mode)⟩,
      ?_, rfl, rfl, rfl, ?_⟩
    · obtain ⟨bc, bu, bg, bm⟩ := b
      simp [dzyga_upload, hb]
    · exact permBits_chmodSet b.mode (octLast3 b.mode)
        (by unfold octLast3; omega)
  · intro hb
    refine ⟨⟨payload, ruid, rgid, chmodSet 0o100644 (octLast3 0o751)⟩,
      ?_, rfl, rfl, rfl, ?_⟩
    · simp [dzyga_upload, hb]
    · exact permBits_chmodSet 0o100644 (octLast3 0o751) (by decide)
  · intro b bk hb hbk hne hval
    refine ⟨⟨bk.content, b.uid, b.gid, chmodSet b.mode (octLast3 b.mode)⟩,
      ?_, rfl, rfl, rfl, ?_⟩
    · obtain ⟨bc, bu, bg, bm⟩ := b
      simp [dzyga_restore, hb, hbk, hne, hval]
    · exact permBits_chmodSet b.mode (octLast3 b.mode)
        (by unfold octLast3; omega)
  · intro bk hb hbk hne hval
    refine ⟨⟨bk.content, ruid, rgid, chmodSet 0o100644 (octLast3 0o751)⟩,
      ?_, rfl, rfl, rfl, ?_⟩
    · simp [dzyga_restore, hb, hbk, hne, hval]
    · exact permBits_chmodSet 0o100644 (octLast3 0o751) (by decide)

/-- C6 witness: the four cases at concrete states. -/
theorem c6_replace_preserves_witness :
    (∃ nb, (dzyga_upload 3 4 [] ['p'] true
        ⟨some ⟨['b'], 7, 8, 0o100755⟩, [], true, []⟩).1.binary = some nb ∧
      nb.content = ['p'] ∧ nb.uid = 7 ∧ nb.gid = 8 ∧
      permBits nb.mode = 0o100755 % 512) ∧
    (∃ nb, (dzyga_upload 3 4 [] ['p'] true
        ⟨none, [], true, []⟩).1.binary = some nb ∧
      nb.content = ['p'] ∧ nb.uid = 3 ∧ nb.gid = 4 ∧
      permBits nb.mode = 0o751) ∧
    (∃ nb, (dzyga_restore 3 4 ['z'] true
        ⟨some ⟨['b'], 7, 8, 0o100755⟩, [(['z'], ⟨['q'], 1, 1, 0o100751⟩)],
          true, []⟩).1.binary = some nb ∧
      nb.content = ['q'] ∧ nb.uid = 7 ∧ nb.gid = 8 ∧
      permBits nb.mode = 0o100755 % 512) ∧
    (∃ nb, (dzyga_restore 3 4 ['z'] true
        ⟨none, [(['z'], ⟨['q'], 1, 1, 0o100751⟩)], true, []⟩).1.binary =
          some nb ∧
      nb.content = ['q'] ∧ nb.uid = 3 ∧ nb.gid = 4 ∧
      permBits nb.mode = 0o751) := by
  refine
    ⟨(c6_replace_preserves 3 4 [] ['p'] []
        ⟨some ⟨['b'], 7, 8, 0o100755⟩, [], true, []⟩).1 _ rfl,
      (c6_replace_preserves 3 4 [] ['p'] [] ⟨none, [], true, []⟩).2.1 rfl,
      (c6_replace_preserves 3 4 [] ['p'] ['z']
        ⟨some ⟨['b'], 7, 8, 0o100755⟩, [(['z'], ⟨['q'], 1, 1, 0o100751⟩)],
          true, []⟩).2.2.1 _ ⟨['q'], 1, 1, 0o100751⟩ rfl (by decide)
        (by decide) (by decide),
      (c6_replace_preserves 3 4 [] ['p'] ['z']
        ⟨none, [(['z'], ⟨['q'], 1, 1, 0o100751⟩)], true, []⟩).2.2.2
        ⟨['q'], 1, 1, 0o100751⟩ rfl (by decide) (by decide) (by decide)⟩

/-! ## lastLookup lemmas -/

theorem oalt_none_right (a : Option Str) : oalt a none = a := by
  cases a <;> rfl

theorem oalt_assoc (a b c : Option Str) :
    oalt (oalt a b) c = oalt a (oalt b c) := by
  cases a <;> rfl

theorem foldl_lastLookup (l : List (Str × Str)) (k : Str) (acc : Option Str) :
    l.foldl (fun acc p => if p.1 = k then some p.2 else acc) acc =
      oalt (lastLookup l k) acc := by
  induction l generalizing acc with
  | nil => rfl
  | cons p l ih =>
    show List.foldl _ (if p.1 = k then some p.2 else acc) l = _
    rw [ih]
    have h2 : lastLookup (p :: l) k =
        oalt (lastLookup l k) (if p.1 = k then some p.2 else none) := by
      show List.foldl _ (if p.1 = k then some p.2 else none) l = _
      rw [ih]
    rw [h2, oalt_assoc]
    congr 1
    by_cases hp : p.1 = k <;> simp [hp, oalt]

theorem lastLookup_cons (p : Str × Str) (l : List (Str × Str)) (k : Str) :
    lastLookup (p :: l) k =
      oalt (lastLookup l k) (if p.1 = k then some p.2 else none) := by
  show List.foldl _ (if p.1 = k then some p.2 else none) l = _
  rw [foldl_lastLookup]

theorem lastLookup_append (a b : List (Str × Str)) (k : Str) :
    lastLookup (a ++ b) k = oalt (lastLookup b k) (lastLookup a k) := by
  show List.foldl _ none (a ++ b) = _
  rw [List.foldl_append]
  exact foldl_lastLookup b k _

theorem lastLookup_none (l : List (Str × Str)) (k : Str)
    (h : ∀ p ∈ l, p.1 ≠ k) : lastLookup l k = none := by
  induction l with
  | nil => rfl
  | cons p l ih =>
    rw [lastLookup_cons, ih (fun q hq => h q (List.mem_cons_of_mem _ hq)),
      if_neg (h p (List.mem_cons_self p l))]
    rfl

theorem lastLookup_const (l : List (Str × Str)) (k v : Str)
    (hex : ∃ p ∈ l, p.1 = k) (hall : ∀ p ∈ l, p.1 = k → p.2 = v) :
    lastLookup l k = some v := by
  induction l with
  | nil => simp at hex
  | cons p l ih =>
    rw [lastLookup_cons]
    by_cases hl : ∃ q ∈ l, q.1 = k
    · rw [ih hl (fun q hq => hall q (List.mem_cons_of_mem _ hq))]
      rfl
    · have hp : p.1 = k := by
        rcases hex with ⟨q, hq, hqk⟩
        rcases List.mem_cons.mp hq with hq | hq
        · exact hq ▸ hqk
        · exact absurd ⟨q, hq, hqk⟩ hl
      rw [lastLookup_none l k (fun q hq hqk => hl ⟨q, hq, hqk⟩), if_pos hp]
      show some p.2 = some v
      rw [hall p (List.mem_cons_self p l) hp]

/-! ## The parser as a lastLookup over assignment lines -/

theorem parseLine_config (st : ParseSt) (l : Str) :
    (parseLine st l).config =
      match lineAssign l with
      | none => st.config
      | some kv => dictInsert kv.1 kv.2 st.config := by
  unfold parseLine lineAssign
  by_cases h1 : startsWithHash (pyStrip l)
  · simp [h1]
  · by_cases h2 : (!(pyStrip l).isEmpty && hasChar '=' (pyStrip l)) = true
    · simp [h1, h2]
    · by_cases h3 : (!(pyStrip l).isEmpty) = true
      · have h4 : hasChar '=' (pyStrip l) = false := by
          cases h4 : hasChar '=' (pyStrip l)
          · rfl
          · exact absurd (by rw [h4, h3]; rfl : (!(pyStrip l).isEmpty &&
              hasChar '=' (pyStrip l)) = true) h2
        simp [h1, h2, h3, h4]
      · simp [h1, h2, h3]

theorem parse_foldl_config (lines : List Str) (st : ParseSt) (k : Str) :
    dget ((lines.foldl parseLine st).config) k =
      oalt (lastLookup (lines.filterMap lineAssign) k) (dget st.config k) := by
  induction lines generalizing st with
  | nil => rfl
  | cons l lines ih =>
    show dget ((lines.foldl parseLine (parseLine st l)).config) k = _
    rw [ih]
    cases hla : lineAssign l with
    | none =>
      rw [List.filterMap_cons]
      simp only [hla]
      congr 1
      rw [parseLine_config, hla]
    | some kv =>
      rw [List.filterMap_cons]
      simp only [hla]
      rw [lastLookup_cons, parseLine_config, hla]
      simp only
      rw [dget_dictInsert, oalt_assoc]
      congr 1
      by_cases hk : kv.1 = k <;> simp [hk, oalt]

theorem dget_applyDefaults (ds : List (Str × Str)) (c : List (Str × Str))
    (k : Str) : dget (applyDefaults ds c) k = oalt (dget c k) (dget ds k) := by
  induction ds generalizing c with
  | nil =>
    show dget c k = oalt (dget c k) none
    rw [oalt_none_right]
  | cons q ds ih =>
    rw [show applyDefaults (q :: ds) c =
      applyDefaults ds (if (dget c q.1).isSome then c
        else dictInsert q.1 q.2 c) from rfl]
    rw [ih]
    by_cases hq : (dget c q.1).isSome
    · rw [if_pos hq]
      by_cases hk : q.1 = k
      · cases hc : dget c k with
        | none =>
          rw [hk] at hq
          rw [hc] at hq
          simp at hq
        | some v => simp [oalt]
      · show oalt (dget c k) (dget ds k) = oalt (dget c k) (dget (q :: ds) k)
        have : dget (q :: ds) k = dget ds k := by
          simp [dget, hk]
        rw [this]
    · rw [if_neg hq, dget_dictInsert]
      by_cases hk : q.1 = k
      · rw [if_pos hk]
        cases hc : dget c k with
        | some v =>
          rw [hk] at hq
          rw [hc] at hq
          simp at hq
        | none =>
          show some q.2 = oalt none (dget (q :: ds) k)
          simp [dget, hk, oalt]
      · rw [if_neg hk]
        have : dget (q :: ds) k = dget ds k := by
          simp [dget, hk]
        rw [this]

theorem dget_parse_config (content : Str) (defs : Option Str) (k : Str) :
    dget (parse_config (some content) defs).1 k =
      oalt (lastLookup ((splitNl content).filterMap lineAssign) k)
        (dget (parse_defaults defs) k) := by
  show dget (applyDefaults (parse_defaults defs)
      ((splitNl content).foldl parseLine ⟨[], [], []⟩).config) k = _
  rw [dget_applyDefaults, parse_foldl_config]
  rw [show dget (([] : List (Str × Str))) k = none from rfl, oalt_none_right]

/-! ## Splitting a newline-terminated file into its lines -/

theorem splitNl_term (l rest : Str) (h : hasChar '\n' l = false) :
    splitNl (l ++ '\n' :: rest) = l :: splitNl rest := by
  induction l with
  | nil =>
    show splitNl ('\n' :: rest) = [] :: splitNl rest
    simp [splitNl]
  | cons c l ih =>
    simp only [hasChar, Bool.or_eq_false_iff, decide_eq_false_iff_not] at h
    show splitNl (c :: (l ++ '\n' :: rest)) = _
    simp only [splitNl, if_neg h.1]
    rw [ih h.2]

theorem splitNl_unlines (body : List Str)
    (h : ∀ l ∈ body, hasChar '\n' l = false) :
    splitNl (unlines body) = body ++ [[]] := by
  induction body with
  | nil => rfl
  | cons l body ih =>
    show splitNl ((l ++ ['\n']) ++ unlines body) = _
    rw [List.append_assoc, List.singleton_append,
      splitNl_term l _ (h l (List.mem_cons_self l body)),
      ih (fun x hx => h x (List.mem_cons_of_mem _ hx))]
    rfl

theorem pyReadlines_unlines (body : List Str)
    (h : ∀ l ∈ body, hasChar '\n' l = false) :
    pyReadlines (unlines body) = body.map (fun l => l ++ ['\n']) := by
  unfold pyReadlines
  rw [splitNl_unlines body h]
  simp only [List.getLast?_concat, List.dropLast_concat]

/-! ## The writer at body level -/

theorem wKeys_cons (U : List (Str × Str)) (l : Str) (body : List Str) :
    wKeys U (l :: body) =
      (if isAssignLine l && (dget U (lineKey l)).isSome then [lineKey l]
        else []) ++ wKeys U body := by
  show List.filterMap _ (l :: body) = _
  rw [List.filterMap_cons]
  by_cases hA : (isAssignLine l && (dget U (lineKey l)).isSome) = true
  · rw [if_pos hA, if_pos hA]
    rfl
  · rw [if_neg hA, if_neg hA]
    rfl

theorem save_lines_map (U : List (Str × Str)) (body : List Str) :
    save_lines U (body.map (fun l => l ++ ['\n'])) =
      (body.map (fun l => writeLine U l ++ ['\n']), wKeys U body) := by
  induction body with
  | nil => rfl
  | cons l body ih =>
    rw [List.map_cons, List.map_cons, wKeys_cons]
    simp only [save_lines]
    rw [ih, pyStrip_concat_space l '\n' (by decide)]
    by_cases hA : isAssignLine l = true
    · have hA' : (hasChar '=' (pyStrip l) && !startsWithHash (pyStrip l)) =
        true := hA
      rw [if_pos hA']
      cases hU : dget U (lineKey l) with
      | some v =>
        have hU' : dget U (pyStrip (splitEq1 (pyStrip l)).1) = some v := hU
        have hw : writeLine U l = lineKey l ++ '=' :: writeVal v := by
          unfold writeLine
          rw [if_pos hA, hU]
        rw [hU', hw]
        simp only [Option.isSome_some, Bool.and_true, hA, if_true]
        unfold lineKey
        simp [List.append_assoc]
      | none =>
        have hU' : dget U (pyStrip (splitEq1 (pyStrip l)).1) = none := hU
        have hw : writeLine U l = l := by
          unfold writeLine
          rw [if_pos hA, hU]
        rw [hU', hw]
        simp only [Option.isSome_none, Bool.and_false, Bool.false_eq_true,
          if_false]
    · have hA' : (hasChar '=' (pyStrip l) && !startsWithHash (pyStrip l)) ≠
        true := hA
      rw [if_neg hA']
      have hw : writeLine U l = l := by
        unfold writeLine
        rw [if_neg hA]
      rw [hw]
      have hc : (isAssignLine l && (dget U (lineKey l)).isSome) ≠ true := by
        intro hcc
        rw [Bool.and_eq_true] at hcc
        exact hA hcc.1
      rw [if_neg hc]

theorem save_config_unlines (body : List Str) (defs : Option Str)
    (U : List (Str × Str)) (h : ∀ l ∈ body, hasChar '\n' l = false) :
    save_config (some (unlines body)) defs U =
      Except.ok (unlines (body.map (writeLine U) ++
        (U.filter (fun kv => !((wKeys U body).contains kv.1))).map
          (fun kv => kv.1 ++ '=' :: writeVal kv.2))) := by
  show Except.ok ((((save_lines U (pyReadlines (unlines body))).1 ++
    appendNew U (save_lines U (pyReadlines (unlines body))).2).flatten)) = _
  rw [pyReadlines_unlines body h, save_lines_map]
  congr 1
  show ((body.map (fun l => writeLine U l ++ ['\n'])) ++
      appendNew U (wKeys U body)).flatten = _
  unfold appendNew unlines
  rw [List.map_append, List.map_map, List.map_map]
  have e2 : List.map ((fun l => l ++ ['\n']) ∘ fun kv : Str × Str =>
      kv.1 ++ '=' :: writeVal kv.2)
      (List.filter (fun kv => !((wKeys U body).contains kv.1)) U) =
      List.map (fun kv => kv.1 ++ '=' :: (writeVal kv.2 ++ ['\n']))
      (List.filter (fun kv => !((wKeys U body).contains kv.1)) U) := by
    apply List.map_congr_left
    intro kv hkv
    show (kv.1 ++ '=' :: writeVal kv.2) ++ ['\n'] = _
    simp
  rw [e2]
  rfl

/-! ## Newline-freedom of written lines -/

theorem writeVal_no_nl (v : Str) (h : hasChar '\n' v = false) :
    hasChar '\n' (writeVal v) = false := by
  unfold writeVal
  by_cases hq : (hasChar ' ' v || v.isEmpty) = true
  · rw [if_pos hq]
    show (('"' = '\n' : Bool) || hasChar '\n' (v ++ ['"'])) = false
    rw [hasChar_append]
    simp [h, hasChar]
  · rw [if_neg hq]
    exact h

theorem writeLine_no_nl (U : List (Str × Str)) (l : Str)
    (hgood : ∀ p ∈ U, goodKey p.1 ∧ goodVal p.2)
    (h : hasChar '\n' l = false) : hasChar '\n' (writeLine U l) = false := by
  unfold writeLine
  by_cases hA : isAssignLine l = true
  · rw [if_pos hA]
    cases hU : dget U (lineKey l) with
    | none => exact h
    | some v =>
      have hmem := dget_some_mem U _ _ hU
      obtain ⟨hgk, hgv⟩ := hgood _ hmem
      show hasChar '\n' (lineKey l ++ '=' :: writeVal v) = false
      rw [hasChar_append]
      rw [show hasChar '\n' (lineKey l) = false from hgk.2.2.1]
      show (false || (('=' = '\n' : Bool) || hasChar '\n' (writeVal v))) = false
      simp [writeVal_no_nl v hgv.2]
  · rw [if_neg hA]
    exact h

/-! ## lineAssign via the shared assignment-line test -/

theorem lineAssign_cond (l : Str) :
    lineAssign l =
      if isAssignLine l then
        some (lineKey l, stripQuotes (pyStrip (splitEq1 (pyStrip l)).2))
      else none := by
  unfold lineAssign isAssignLine lineKey
  by_cases h1 : startsWithHash (pyStrip l) = true
  · simp [h1]
  · by_cases h2 : hasChar '=' (pyStrip l) = true
    · have h3 : (pyStrip l).isEmpty = false := by
        have := hasChar_ne_nil '=' _ h2
        simpa [List.isEmpty_iff] using this
      simp [h1, h2, h3]
    · simp [h1, h2]

theorem filterMap_written (L : List (Str × Str))
    (h : ∀ p ∈ L, goodKey p.1 ∧ goodVal p.2) :
    (L.map (fun kv => kv.1 ++ '=' :: writeVal kv.2)).filterMap lineAssign =
      L := by
  induction L with
  | nil => rfl
  | cons p L ih =>
    rw [List.map_cons, List.filterMap_cons]
    obtain ⟨hgk, hgv⟩ := h p (List.mem_cons_self p L)
    rw [lineAssign_written p.1 p.2 hgk.1 hgk.2.1 hgk.2.2.2 hgv.1]
    rw [ih (fun q hq => h q (List.mem_cons_of_mem _ hq))]

/-! ## The rewritten body and the original body as key/value sequences -/

theorem contains_iff (l : List Str) (a : Str) : l.contains a = true ↔ a ∈ l :=
  List.elem_iff

theorem contains_eq_false_iff (l : List Str) (a : Str) :
    l.contains a = false ↔ a ∉ l := by
  constructor
  · intro h hmem
    rw [(contains_iff l a).mpr hmem] at h
    cases h
  · intro h
    cases hcv : l.contains a
    · rfl
    · exact absurd ((contains_iff l a).mp hcv) h

theorem lastLookup_trans_some (U : List (Str × Str)) (body : List Str)
    (k v : Str)
    (hgood : ∀ p ∈ U, goodKey p.1 ∧ goodVal p.2)
    (hk : dget U k = some v) :
    lastLookup (body.filterMap (fun l => lineAssign (writeLine U l))) k =
      if (wKeys U body).contains k then some v else none := by
  induction body with
  | nil => rfl
  | cons l body ih =>
    rw [List.filterMap_cons, wKeys_cons]
    by_cases hA : isAssignLine l = true
    · cases hU : dget U (lineKey l) with
      | some w =>
        have hmem := dget_some_mem U _ _ hU
        obtain ⟨hgk, hgv⟩ := hgood _ hmem
        have hwl : writeLine U l = lineKey l ++ '=' :: writeVal w := by
          unfold writeLine
          rw [if_pos hA, hU]
        have hla : lineAssign (writeLine U l) = some (lineKey l, w) := by
          rw [hwl]
          exact lineAssign_written _ _ hgk.1 hgk.2.1 hgk.2.2.2 hgv.1
        rw [hla]
        have hcc : (isAssignLine l && (some w : Option Str).isSome) = true := by
          rw [hA]
          rfl
        rw [if_pos hcc]
        show lastLookup ((lineKey l, w) :: _) k = _
        rw [lastLookup_cons, ih]
        by_cases hkk : lineKey l = k
        · have hv : w = v := by
            rw [hkk] at hU
            rw [hU] at hk
            exact Option.some.inj hk
          subst hv
          have hcont : (([lineKey l] ++ wKeys U body).contains k) = true := by
            rw [contains_iff]
            exact List.mem_append_left _ (by simp [hkk])
          rw [if_pos hcont, if_pos hkk]
          by_cases hcw : (wKeys U body).contains k = true
          · rw [if_pos hcw]
            rfl
          · rw [if_neg hcw]
            rfl
        · have hceq : (([lineKey l] ++ wKeys U body).contains k) =
              ((wKeys U body).contains k) := by
            by_cases hm : k ∈ wKeys U body
            · rw [(contains_iff _ _).mpr hm,
                (contains_iff _ _).mpr (List.mem_append_right _ hm)]
            · rw [(contains_eq_false_iff _ _).mpr hm,
                (contains_eq_false_iff _ _).mpr ?_]
              intro hx
              rcases List.mem_append.mp hx with hx | hx
              · simp at hx
                exact hkk hx.symm
              · exact hm hx
          rw [hceq, if_neg hkk, oalt_none_right]
      | none =>
        have hwl : writeLine U l = l := by
          unfold writeLine
          rw [if_pos hA, hU]
        rw [hwl]
        have hcc : (isAssignLine l && (none : Option Str).isSome) ≠ true := by
          simp
        rw [if_neg hcc]
        have hla : lineAssign l = some (lineKey l,
            stripQuotes (pyStrip (splitEq1 (pyStrip l)).2)) := by
          rw [lineAssign_cond, if_pos hA]
        rw [hla]
        show lastLookup ((lineKey l, _) :: _) k = _
        rw [lastLookup_cons, ih]
        have hne : lineKey l ≠ k := by
          intro he
          rw [he, hk] at hU
          cases hU
        rw [if_neg hne, oalt_none_right, List.nil_append]
    · have hwl : writeLine U l = l := by
        unfold writeLine
        rw [if_neg hA]
      have hla : lineAssign l = none := by
        rw [lineAssign_cond, if_neg hA]
      rw [hwl, hla]
      have hcc : (isAssignLine l && (dget U (lineKey l)).isSome) ≠ true := by
        intro hcc
        rw [Bool.and_eq_true] at hcc
        exact hA hcc.1
      rw [if_neg hcc, List.nil_append]
      exact ih

theorem lastLookup_trans_none (U : List (Str × Str)) (body : List Str)
    (k : Str)
    (hgood : ∀ p ∈ U, goodKey p.1 ∧ goodVal p.2)
    (hk : dget U k = none) :
    lastLookup (body.filterMap (fun l => lineAssign (writeLine U l))) k =
      lastLookup (body.filterMap lineAssign) k := by
  induction body with
  | nil => rfl
  | cons l body ih =>
    rw [List.filterMap_cons, List.filterMap_cons]
    by_cases hA : isAssignLine l = true
    · have hla0 : lineAssign l = some (lineKey l,
          stripQuotes (pyStrip (splitEq1 (pyStrip l)).2)) := by
        rw [lineAssign_cond, if_pos hA]
      cases hU : dget U (lineKey l) with
      | some w =>
        have hmem := dget_some_mem U _ _ hU
        obtain ⟨hgk, hgv⟩ := hgood _ hmem
        have hwl : writeLine U l = lineKey l ++ '=' :: writeVal w := by
          unfold writeLine
          rw [if_pos hA, hU]
        have hla : lineAssign (writeLine U l) = some (lineKey l, w) := by
          rw [hwl]
          exact lineAssign_written _ _ hgk.1 hgk.2.1 hgk.2.2.2 hgv.1
        rw [hla, hla0]
        have hne : lineKey l ≠ k := by
          intro he
          rw [he, hk] at hU
          cases hU
        show lastLookup ((lineKey l, w) :: _) k =
          lastLookup ((lineKey l, _) :: _) k
        rw [lastLookup_cons, lastLookup_cons, if_neg hne, if_neg hne,
          oalt_none_right, oalt_none_right]
        exact ih
      | none =>
        have hwl : writeLine U l = l := by
          unfold writeLine
          rw [if_pos hA, hU]
        rw [hwl, hla0]
        show lastLookup (_ :: _) k = lastLookup (_ :: _) k
        rw [lastLookup_cons, lastLookup_cons, ih]
    · have hwl : writeLine U l = l := by
        unfold writeLine
        rw [if_neg hA]
      have hla : lineAssign l = none := by
        rw [lineAssign_cond, if_neg hA]
      rw [hwl, hla]
      exact ih

/-! ## C3: the save/parse round trip -/

/-- C3 counterexample: updating `K` to the literal value `"x"` (wrapped in
double quotes) over the file `K=1` and re-parsing yields `x`: the parser
strips the quote pair, so the resulting mapping is not `U` merged over the
original values. -/
theorem c3_counterexample :
    (match save_config (some ("K=1\n".data)) none
        [("K".data, "\"x\"".data)] with
     | Except.ok out => dget (parse_config (some out) none).1 ("K".data)
     | Except.error _ => none) = some ("x".data) ∧
    some ("x".data) ≠ some ("\"x\"".data) := ⟨by decide, by decide⟩

/-- C3 (amended): for every persisted file given as newline-terminated
lines, and every update dict whose keys are stripped, `=`-free,
newline-free and not comment-like, and whose values are newline-free and
survive the writer's quoting followed by the parser's trimming and
unquoting unchanged, writing the file with updates `U` and then parsing
yields exactly `U` merged over the original parsed values: updated keys
take `U`'s values, all other keys keep their original values, and new keys
of `U` appear. -/
theorem c3_save_parse_roundtrip (body : List Str) (defs : Option Str)
    (U : List (Str × Str))
    (hbody : ∀ l ∈ body, hasChar '\n' l = false)
    (hnd : (U.map Prod.fst).Nodup)
    (hgood : ∀ p ∈ U, goodKey p.1 ∧ goodVal p.2) :
    ∃ out, save_config (some (unlines body)) defs U = Except.ok out ∧
      ∀ k, dget (parse_config (some out) defs).1 k =
        oalt (dget U k)
          (dget (parse_config (some (unlines body)) defs).1 k) := by
  refine ⟨_, save_config_unlines body defs U hbody, ?_⟩
  intro k
  set app := U.filter (fun kv => !((wKeys U body).contains kv.1)) with happ
  have happgood : ∀ p ∈ app, goodKey p.1 ∧ goodVal p.2 := fun p hp =>
    hgood p (List.mem_of_mem_filter hp)
  have hnewnl : ∀ l ∈ body.map (writeLine U) ++
      app.map (fun kv => kv.1 ++ '=' :: writeVal kv.2),
      hasChar '\n' l = false := by
    intro l hl
    rcases List.mem_append.mp hl with hl | hl
    · rcases List.mem_map.mp hl with ⟨x, hx, rfl⟩
      exact writeLine_no_nl U x hgood (hbody x hx)
    · rcases List.mem_map.mp hl with ⟨kv, hkv, rfl⟩
      obtain ⟨hgk, hgv⟩ := happgood kv hkv
      rw [hasChar_append, hgk.2.2.1]
      show (false || (('=' = '\n' : Bool) ||
        hasChar '\n' (writeVal kv.2))) = false
      simp [writeVal_no_nl kv.2 hgv.2]
  rw [dget_parse_config, dget_parse_config]
  rw [splitNl_unlines _ hnewnl, splitNl_unlines body hbody]
  simp only [List.filterMap_append]
  rw [show List.filterMap lineAssign [([] : Str)] = [] from by decide]
  rw [List.append_nil, List.append_nil]
  rw [filterMap_written app happgood]
  rw [List.filterMap_map]
  rw [show (lineAssign ∘ writeLine U) =
    (fun l => lineAssign (writeLine U l)) from rfl]
  rw [lastLookup_append]
  cases hUk : dget U k with
  | some v =>
    rw [lastLookup_trans_some U body k v hgood hUk]
    by_cases hcont : (wKeys U body).contains k = true
    · rw [if_pos hcont]
      have hnone : lastLookup app k = none := by
        apply lastLookup_none
        intro p hp hpk
        have hfil := List.of_mem_filter hp
        rw [hpk, hcont] at hfil
        simp at hfil
      rw [hnone]
      rfl
    · rw [if_neg hcont]
      have hcf : (wKeys U body).contains k = false := by
        cases hc : (wKeys U body).contains k
        · rfl
        · exact absurd hc hcont
      have hsome : lastLookup app k = some v := by
        apply lastLookup_const
        · refine ⟨(k, v), ?_, rfl⟩
          apply List.mem_filter.mpr
          refine ⟨dget_some_mem U k v hUk, ?_⟩
          show (!((wKeys U body).contains k)) = true
          rw [hcf]
          rfl
        · intro p hp hpk
          have hU := dget_nodup_of_mem U p hnd (List.mem_of_mem_filter hp)
          rw [hpk, hUk] at hU
          exact (Option.some.inj hU).symm
      rw [hsome]
      rfl
  | none =>
    rw [lastLookup_trans_none U body k hgood hUk]
    have hnone : lastLookup app k = none := by
      apply lastLookup_none
      intro p hp hpk
      exact (dget_eq_none_iff U k).mp hUk p (List.mem_of_mem_filter hp) hpk
    rw [hnone]
    rfl

/-- C3 witness: a concrete file and update set satisfying the round-trip
hypotheses. -/
theorem c3_save_parse_roundtrip_witness :
    ∃ out, save_config (some (unlines ["A=1".data, "# note".data, "B=2".data]))
        (some ("C=9\n".data)) [("B".data, "x y".data), ("D".data, "7".data)] =
        Except.ok out ∧
      ∀ k, dget (parse_config (some out) (some ("C=9\n".data))).1 k =
        oalt (dget [("B".data, "x y".data), ("D".data, "7".data)] k)
          (dget (parse_config
            (some (unlines ["A=1".data, "# note".data, "B=2".data]))
            (some ("C=9\n".data))).1 k) :=
  c3_save_parse_roundtrip ["A=1".data, "# note".data, "B=2".data]
    (some ("C=9\n".data)) [("B".data, "x y".data), ("D".data, "7".data)]
    (by decide) (by decide) (by decide)
